import Mathlib

/-!
Verification development for the `pino-test` utility library
(`src/pino-test.js`).

The library offers a record sink (`sink`), a record validator (`check`)
and three asynchronous waiters (`once`, `consecutive`, `waitFor`).  We
shallowly embed the JavaScript code:

* JSON-like runtime values become the inductive type `JVal`; an object is
  encoded first-order as a chain of `objCons` cells ending in `objNil`
  (this keeps every definition structurally recursive and computable).
* The ambient process state (`Date.now()`, `process.pid`, `os.hostname()`,
  date-string parsing) becomes an explicit `Env` record.
* Thrown assertion errors become the `Except JErr` monad.
* The promise/event-listener control flow of `once` and `waitFor` becomes
  explicit state machines (`OnceState`, `WFState`) driven by a list of
  stream events; promise settlement is modelled by an `Option` outcome
  that is written at most once (`settleOnce`, `settleWF`), while listener
  attachment and the pending timer are explicit boolean flags.
* `consecutive`'s `for await` loop becomes structural recursion over the
  finite list of records the stream yields before ending.
-/

set_option linter.unusedVariables false
set_option linter.unnecessarySimpa false

/-- JavaScript runtime values as they occur in this library: JSON scalars
and objects.  An object is a finite list of string-keyed fields, encoded
as a first-order cons chain (`objCons k v rest`, terminated by `objNil`). -/
inductive JVal : Type where
  | undefined
  | null
  | bool (b : Bool)
  | num (n : Int)
  | str (s : String)
  | objNil
  | objCons (key : String) (value : JVal) (rest : JVal)
deriving DecidableEq, Repr

/-- Is the value an object (the result of destructuring-compatible
`JSON.parse` output for a log record)? -/
def isObj : JVal → Bool
  | .objNil => true
  | .objCons _ _ _ => true
  | _ => false

/-- Property lookup `o[key]` on an object chain: first field with the key
wins; a missing key — or a non-object receiver — yields `undefined`. -/
def objGet : JVal → String → JVal
  | .objCons k v rest, key => if k = key then v else objGet rest key
  | _, _ => .undefined

/-- Object-rest destructuring `{...rest}` minus the listed keys: keeps the
fields whose key is not excluded.  (On the non-object scalars that can
reach it in this development it yields the empty object.) -/
def objRemove : JVal → List String → JVal
  | .objCons k v rest, keys =>
      if keys.contains k then objRemove rest keys
      else .objCons k v (objRemove rest keys)
  | _, _ => .objNil

/-- Does the object chain contain a field with the given key? -/
def objHas : JVal → String → Bool
  | .objCons k _ rest, key => if k = key then true else objHas rest key
  | _, _ => false

/-- JavaScript truthiness: `undefined`, `null`, `false`, `0` and the empty
string are falsy, everything else (including every object) is truthy. -/
def truthy : JVal → Bool
  | .undefined => false
  | .null => false
  | .bool b => b
  | .num n => n != 0
  | .str s => s != ""
  | .objNil => true
  | .objCons _ _ _ => true

/-- Template-literal stringification, as used by the `waitFor` error
messages (only scalars actually occur there). -/
def jsToString : JVal → String
  | .undefined => "undefined"
  | .null => "null"
  | .bool b => if b then "true" else "false"
  | .num n => toString n
  | .str s => s
  | .objNil => "[object Object]"
  | .objCons _ _ _ => "[object Object]"

/-- Errors thrown inside the library: the three envelope assertion
failures of `check`, a deep-equality assertion failure, the `TypeError`
of destructuring `null`/`undefined`, decode (JSON parse) errors, and the
distinguished message-carrying errors the waiters construct. -/
inductive JErr : Type where
  | timeNotLe
  | pidMismatch
  | hostnameMismatch
  | notDeepEqual
  | typeErr
  | custom (msg : String)
deriving DecidableEq, Repr

/-- An expectation handed to a waiter: either a literal object compared by
the pluggable assert function, or a callback invoked with the stripped
record (`typeof expectedOrCallback === 'function'`). -/
inductive Expected : Type where
  | lit (v : JVal)
  | callback (f : JVal → Except JErr Unit)

/-- The ambient state the library reads from Node: the current clock
(`new Date()` as epoch milliseconds), `process.pid`, `os.hostname()`, and
the date parser used by `new Date(string)` (`none` = Invalid Date). -/
structure Env : Type where
  now : Int
  pid : Int
  hostname : String
  parseDateStr : String → Option Int

/-- Value of `new Date(t)` as epoch milliseconds; `none` is an Invalid
Date.  `undefined` and plain objects give Invalid Date; `null` and
booleans coerce to small numbers; numbers are epoch milliseconds;
strings go through date parsing. -/
def jsDateOf (env : Env) : JVal → Option Int
  | .undefined => none
  | .null => some 0
  | .bool b => some (if b then 1 else 0)
  | .num n => some n
  | .str s => env.parseDateStr s
  | .objNil => none
  | .objCons _ _ _ => none

/-- The boolean value of `new Date(time) <= new Date()`: comparison with
an Invalid Date (`NaN`) is `false`. -/
def envelopeTime (env : Env) (t : JVal) : Bool :=
  match jsDateOf env t with
  | some m => decide (m ≤ env.now)
  | none => false

/-- Fuel-bounded deep structural equality in the sense of Node's
`assert.deepStrictEqual` restricted to JSON values: scalars by value,
objects by equal field count and key-wise deeply-equal values (key order
irrelevant).  The fuel only bounds recursion depth; callers pass more
fuel than the nesting depth of the operands. -/
def jdeqFuel : Nat → JVal → JVal → Bool
  | 0, _, _ => false
  | _ + 1, .undefined, .undefined => true
  | _ + 1, .null, .null => true
  | _ + 1, .bool x, .bool y => x == y
  | _ + 1, .num x, .num y => x == y
  | _ + 1, .str x, .str y => x == y
  | fuel + 1, .objCons k v rest, w =>
      (if objHas w k then jdeqFuel fuel v (objGet w k) else false) &&
      jdeqFuel fuel rest (objRemove w [k])
  | _ + 1, .objNil, .objNil => true
  | _ + 1, _, _ => false

/-- Depth bound used as fuel for `jdeqFuel`. -/
def jdepth : JVal → Nat
  | .objCons _ v rest => 1 + max (jdepth v) (jdepth rest)
  | _ => 0

/-- Model of Node's `assert.deepStrictEqual` on JSON values: succeeds when
the two values are deeply structurally equal, otherwise throws an
assertion error. -/
def deepStrictEqual (actual expected : JVal) : Except JErr Unit :=
  if jdeqFuel (jdepth actual + jdepth expected + 1) actual expected then .ok ()
  else .error .notDeepEqual

/-- Source constant `DEFAULT_WAIT_FOR_TIMEOUT`. -/
def DEFAULT_WAIT_FOR_TIMEOUT : Int := 1000

/-- Source constant `DEFAULT_MAX_MESSAGES`. -/
def DEFAULT_MAX_MESSAGES : Int := 100

/-- Do the three envelope assertions of `check` all hold for this chunk? -/
def envelopeOk (env : Env) (chunk : JVal) : Bool :=
  envelopeTime env (objGet chunk "time") &&
  decide (objGet chunk "pid" = .num env.pid) &&
  decide (objGet chunk "hostname" = .str env.hostname)

/-- The error raised by the first failing envelope assertion (meaningful
when `envelopeOk` is false). -/
def envelopeFail (env : Env) (chunk : JVal) : JErr :=
  if ¬ envelopeTime env (objGet chunk "time") then .timeNotLe
  else if objGet chunk "pid" ≠ .num env.pid then .pidMismatch
  else .hostnameMismatch

/-- The record validator `check(chunk, expectedOrCallback, assert)` of
`src/pino-test.js`: destructure `{ time, pid, hostname, ...chunkCopy }`
(a `TypeError` on `null`/`undefined`), assert
`new Date(time) <= new Date()`, `pid === process.pid` and
`hostname === os.hostname()` in that order, then either invoke the
callback on `chunkCopy` or invoke the assert function on `chunkCopy` and
the literal expectation. -/
def check (env : Env) (chunk : JVal) (expectedOrCallback : Expected)
    (assert : JVal → JVal → Except JErr Unit) : Except JErr Unit :=
  match chunk with
  | .null => .error .typeErr
  | .undefined => .error .typeErr
  | _ =>
    let time := objGet chunk "time"
    let pid := objGet chunk "pid"
    let hostname := objGet chunk "hostname"
    let chunkCopy := objRemove chunk ["time", "pid", "hostname"]
    if ¬ envelopeTime env time then .error .timeNotLe
    else if pid ≠ .num env.pid then .error .pidMismatch
    else if hostname ≠ .str env.hostname then .error .hostnameMismatch
    else
      match expectedOrCallback with
      | .callback f => f chunkCopy
      | .lit expected => assert chunkCopy expected

/-- State of one `sink()` stream: the decoded records it has pushed
downstream, the error events it has emitted, and whether it has been
destroyed. -/
structure SinkState : Type where
  records : List JVal
  errors : List JErr
  destroyed : Bool
deriving DecidableEq, Repr

/-- A freshly created sink. -/
def sinkInit : SinkState := ⟨[], [], false⟩

/-- The `sink({ destroyOnError, emitErrorEvent })` mapper of
`src/pino-test.js` applied to one raw line: try to decode it; on success
push the record downstream; on a decode error emit an `error` event when
`emitErrorEvent` is set and destroy the stream when `destroyOnError` is
set (independently).  A destroyed stream processes no further lines. -/
def sinkWrite (decode : String → Except JErr JVal)
    (destroyOnError emitErrorEvent : Bool) (s : SinkState) (line : String) : SinkState :=
  if s.destroyed then s
  else
    match decode line with
    | .ok v => { s with records := s.records ++ [v] }
    | .error err =>
        { s with
            errors := s.errors ++ (if emitErrorEvent then [err] else []),
            destroyed := destroyOnError }

/-- Feed a whole list of raw lines to a fresh sink. -/
def sinkRun (decode : String → Except JErr JVal)
    (destroyOnError emitErrorEvent : Bool) (lines : List String) : SinkState :=
  lines.foldl (sinkWrite decode destroyOnError emitErrorEvent) sinkInit

/-- The `for await` loop of `consecutive`: `i` is the loop counter, the
list holds the records the stream yields before it ends.  Each chunk is
checked against `expectedOrCallbacks[i]` (reading past the end of the
array yields `undefined`, a non-callback); a thrown check aborts; after a
successful check the loop breaks once `i` reaches the expectation count.
Returns the final `i` together with the records left unconsumed. -/
def consecutiveLoop (env : Env) (exps : List Expected)
    (assert : JVal → JVal → Except JErr Unit) :
    Nat → List JVal → Except JErr (Nat × List JVal)
  | i, [] => .ok (i, [])
  | i, chunk :: rest =>
      match check env chunk (exps.getD i (.lit .undefined)) assert with
      | .error e => .error e
      | .ok _ =>
          if i + 1 = exps.length then .ok (i + 1, rest)
          else consecutiveLoop env exps assert (i + 1) rest

/-- `consecutive(stream, expectedOrCallbacks, assert)` of
`src/pino-test.js`, for a stream that yields exactly `records` and then
ends: run the loop; if it drained the stream with expectations still
unmatched, throw the distinguished stream-ended error.  On success the
unconsumed records are returned (the loop broke without reading them). -/
def consecutive (env : Env) (exps : List Expected)
    (assert : JVal → JVal → Except JErr Unit) (records : List JVal) :
    Except JErr (List JVal) :=
  match consecutiveLoop env exps assert 0 records with
  | .error e => .error e
  | .ok (i, rest) =>
      if i < exps.length then
        .error (.custom "Stream ended before all expected logs were received")
      else .ok rest

/-- An event observed on the stream by `once`: a decoded record or a
stream error. -/
inductive SEvent : Type where
  | data (chunk : JVal)
  | err (e : JErr)
deriving Repr

/-- Decidable equality of `Except` results (check results, waiter
results), used to `decide` claims at concrete inputs. -/
instance {ε α : Type} [DecidableEq ε] [DecidableEq α] : DecidableEq (Except ε α) := fun a b =>
  match a, b with
  | .ok x, .ok y =>
      if h : x = y then isTrue (by rw [h]) else isFalse (by intro hh; cases hh; exact h rfl)
  | .error e, .error f =>
      if h : e = f then isTrue (by rw [h]) else isFalse (by intro hh; cases hh; exact h rfl)
  | .ok _, .error _ => isFalse (by intro hh; cases hh)
  | .error _, .ok _ => isFalse (by intro hh; cases hh)

/-- Promise/listener state of one `once(stream, ...)` call: whether its
one-shot `data` and `error` listeners are still attached, how many times
the validator has run, and the settlement of its promise (`none` =
pending, `some (.ok ())` = resolved, `some (.error e)` = rejected). -/
structure OnceState : Type where
  dataOn : Bool
  errorOn : Bool
  validatorRuns : Nat
  outcome : Option (Except JErr Unit)
deriving DecidableEq, Repr

/-- Promise settlement: the first settlement wins, later ones are no-ops. -/
def settleOnce (o : Except JErr Unit) (s : OnceState) : OnceState :=
  match s.outcome with
  | some _ => s
  | none => { s with outcome := some o }

/-- One stream event delivered to `once`'s listeners.  The `data` handler
(a one-shot listener) removes both listeners, then runs `check` inside
`try`, resolving on success and rejecting with the thrown error.  The
`error` listener (one-shot, the promise's `reject`) rejects; being a
one-shot it detaches itself but leaves the `data` listener attached. -/
def onceStep (env : Env) (exp : Expected)
    (assert : JVal → JVal → Except JErr Unit) (s : OnceState) : SEvent → OnceState
  | .data chunk =>
      if s.dataOn then
        settleOnce (check env chunk exp assert)
          { s with dataOn := false, errorOn := false,
                   validatorRuns := s.validatorRuns + 1 }
      else s
  | .err e =>
      if s.errorOn then settleOnce (.error e) { s with errorOn := false }
      else s

/-- State of `once` right after registering its two one-shot listeners. -/
def onceInit : OnceState := ⟨true, true, 0, none⟩

/-- Run one `once` call against the given sequence of stream events. -/
def onceRun (env : Env) (exp : Expected)
    (assert : JVal → JVal → Except JErr Unit) (events : List SEvent) : OnceState :=
  events.foldl (onceStep env exp assert) onceInit

/-- An event observed by one `waitFor` call: a decoded record, a stream
error, or its timer firing (a cancelled timer never fires). -/
inductive WFEvent : Type where
  | data (chunk : JVal)
  | err (e : JErr)
  | timerFire
deriving Repr

/-- Terminal outcome of a `waitFor` promise. -/
inductive WFOutcome : Type where
  | resolved
  | timeoutReject (msg : String)
  | maxReject (msg : String)
  | errorReject (e : JErr)
deriving DecidableEq, Repr

/-- Is this outcome the stream-error rejection? -/
def WFOutcome.isStreamError : WFOutcome → Bool
  | .errorReject _ => true
  | _ => false

/-- State of one `waitFor` call: the non-matching message count, whether
its `data` and `error` listeners are attached, whether its timer is still
pending, and the settlement of its promise. -/
structure WFState : Type where
  count : Nat
  dataOn : Bool
  errorOn : Bool
  timerOn : Bool
  outcome : Option WFOutcome
deriving DecidableEq, Repr

/-- Promise settlement for `waitFor`: first settlement wins. -/
def settleWF (o : WFOutcome) (s : WFState) : WFState :=
  match s.outcome with
  | some _ => s
  | none => { s with outcome := some o }

/-- The identifier interpolated into `waitFor`'s error messages:
`expectedOrCallbacks.msg` for a non-function expectation (stringified,
`undefined` when the field is missing), the literal `[function]`
placeholder for a callback. -/
def wfIdentifier : Expected → String
  | .callback _ => "[function]"
  | .lit v => jsToString (objGet v "msg")

/-- One event delivered to a `waitFor` call, mirroring its handlers.
`data` (handler `fn`, attached with `on`): run `check`; on success detach
both listeners, cancel the timer and resolve; on a thrown check increment
`count` and, once `count > maxMessages`, detach both listeners, cancel
the timer and reject with the max-message-count error.  `err` (handler is
the promise's `reject`, attached with `on`): reject, detaching nothing
and leaving the timer running.  `timerFire`: detach both listeners and
reject with the timeout error. -/
def wfStep (env : Env) (exp : Expected)
    (assert : JVal → JVal → Except JErr Unit) (maxMessages : Int)
    (s : WFState) : WFEvent → WFState
  | .data message =>
      if s.dataOn then
        match check env message exp assert with
        | .ok _ =>
            settleWF .resolved
              { s with dataOn := false, errorOn := false, timerOn := false }
        | .error _ =>
            if (s.count + 1 : Int) > maxMessages then
              settleWF (.maxReject ("Max message count reached on waitFor: " ++ wfIdentifier exp))
                { s with count := s.count + 1,
                         dataOn := false, errorOn := false, timerOn := false }
            else { s with count := s.count + 1 }
      else s
  | .err e =>
      if s.errorOn then settleWF (.errorReject e) s
      else s
  | .timerFire =>
      if s.timerOn then
        settleWF (.timeoutReject ("Timeout on waitFor: " ++ wfIdentifier exp))
          { s with dataOn := false, errorOn := false, timerOn := false }
      else s

/-- State of `waitFor` right after registering its listeners and timer. -/
def wfInit : WFState := ⟨0, true, true, true, none⟩

/-- Run one `waitFor` call against the given sequence of events. -/
def wfRun (env : Env) (exp : Expected)
    (assert : JVal → JVal → Except JErr Unit) (maxMessages : Int)
    (events : List WFEvent) : WFState :=
  events.foldl (wfStep env exp assert maxMessages) wfInit

/-- The effective assert function and options of a `waitFor` call. -/
structure WFConfig : Type where
  assertFn : JVal → JVal → Except JErr Unit
  maxMessages : JVal
  timeout : JVal
  debug : JVal

/-- The third positional argument of `waitFor`: either an assert function
(`typeof assert === 'function'`) or an object (`typeof assert ===
'object'`). -/
inductive AssertArg : Type where
  | fn (assert : JVal → JVal → Except JErr Unit)
  | objArg (o : JVal)

/-- Destructuring with a default, as in
`let { maxMessages = DEFAULT_MAX_MESSAGES, ... } = options`: the default
applies exactly when the field is `undefined`. -/
def destructureDefault (options : JVal) (key : String) (dflt : JVal) : JVal :=
  match objGet options key with
  | .undefined => dflt
  | v => v

/-- JavaScript `a || dflt`: the default applies whenever `a` is falsy. -/
def orDefault (v dflt : JVal) : JVal :=
  if truthy v then v else dflt

/-- Argument handling at the top of `waitFor`: destructure the fourth
`options` argument with defaults; when the third argument is itself an
object rather than a function, fall back to `deepStrictEqual` and take
every option from that object via `||` with the same defaults. -/
def waitForConfig (assert : AssertArg) (options : JVal) : WFConfig :=
  match assert with
  | .fn a =>
      { assertFn := a
        maxMessages := destructureDefault options "maxMessages" (.num DEFAULT_MAX_MESSAGES)
        timeout := destructureDefault options "timeout" (.num DEFAULT_WAIT_FOR_TIMEOUT)
        debug := destructureDefault options "debug" (.bool false) }
  | .objArg o =>
      { assertFn := deepStrictEqual
        maxMessages := orDefault (objGet o "maxMessages") (.num DEFAULT_MAX_MESSAGES)
        timeout := orDefault (objGet o "timeout") (.num DEFAULT_WAIT_FOR_TIMEOUT)
        debug := orDefault (objGet o "debug") (.bool false) }

/-! ### Concrete sample data used by witnesses and counterexamples -/

/-- A concrete ambient environment: clock at 1000000, pid 42, hostname
`host1`, no parseable date strings. -/
def env0 : Env := ⟨1000000, 42, "host1", fun _ => none⟩

/-- A fully valid record for `env0` with body
`{ level: 30, msg: "hello world" }`. -/
def rec0 : JVal :=
  .objCons "time" (.num 5) (.objCons "pid" (.num 42) (.objCons "hostname" (.str "host1")
    (.objCons "level" (.num 30) (.objCons "msg" (.str "hello world") .objNil))))

/-- The body of `rec0` (its fields minus the envelope). -/
def body0 : JVal := .objCons "level" (.num 30) (.objCons "msg" (.str "hello world") .objNil)

/-- A literal expectation matching the body of `rec0`. -/
def exp0 : Expected := .lit body0

/-- Like `rec0` but with a wrong process id (43 instead of 42); its body
still matches `exp0`. -/
def recBadPid : JVal :=
  .objCons "time" (.num 5) (.objCons "pid" (.num 43) (.objCons "hostname" (.str "host1")
    (.objCons "level" (.num 30) (.objCons "msg" (.str "hello world") .objNil))))

/-- A record for `env0` with a valid envelope and the body
`{ level: 30, msg: "bye world" }` (not matching `exp0`). -/
def recBye : JVal :=
  .objCons "time" (.num 5) (.objCons "pid" (.num 42) (.objCons "hostname" (.str "host1")
    (.objCons "level" (.num 30) (.objCons "msg" (.str "bye world") .objNil))))

/-- A record with no `time` field at all (envelope otherwise valid). -/
def recNoTime : JVal :=
  .objCons "pid" (.num 42) (.objCons "hostname" (.str "host1")
    (.objCons "level" (.num 30) (.objCons "msg" (.str "hello world") .objNil)))

/-- A concrete decode function for sink witnesses: the line `"rec"`
decodes to `rec0`, everything else raises a parse error. -/
def decode0 : String → Except JErr JVal := fun line =>
  if line = "rec" then .ok rec0 else .error (.custom "Unexpected token")

/-! ### Helper lemmas about `check` -/

/-- Unfolding of `check` on an object chunk: the three envelope
assertions in order, then the expectation dispatch on the remainder. -/
theorem check_isObj (env : Env) (chunk : JVal) (exp : Expected)
    (assert : JVal → JVal → Except JErr Unit) (hO : isObj chunk = true) :
    check env chunk exp assert =
      (if ¬ envelopeTime env (objGet chunk "time") then .error .timeNotLe
       else if objGet chunk "pid" ≠ .num env.pid then .error .pidMismatch
       else if objGet chunk "hostname" ≠ .str env.hostname then .error .hostnameMismatch
       else
         match exp with
         | .callback f => f (objRemove chunk ["time", "pid", "hostname"])
         | .lit e => assert (objRemove chunk ["time", "pid", "hostname"]) e) := by
  cases chunk <;> first | rfl | simp [isObj] at hO

/-- When any envelope assertion fails on an object chunk, `check` throws
the first failing envelope assertion, whatever the expectation and the
assert function are. -/
theorem check_envelope_fail (env : Env) (chunk : JVal) (exp : Expected)
    (assert : JVal → JVal → Except JErr Unit) (hO : isObj chunk = true)
    (hE : envelopeOk env chunk = false) :
    check env chunk exp assert = .error (envelopeFail env chunk) := by
  rw [check_isObj env chunk exp assert hO]
  by_cases h1 : envelopeTime env (objGet chunk "time")
  · by_cases h2 : objGet chunk "pid" = .num env.pid
    · by_cases h3 : objGet chunk "hostname" = .str env.hostname
      · simp [envelopeOk, h1, h2, h3] at hE
      · simp [envelopeFail, h1, h2, h3]
    · simp [envelopeFail, h1, h2]
  · simp [envelopeFail, h1]

/-- When the three envelope assertions pass on an object chunk, `check`
is exactly the expectation comparison on the remainder. -/
theorem check_envelope_ok (env : Env) (chunk : JVal) (exp : Expected)
    (assert : JVal → JVal → Except JErr Unit) (hO : isObj chunk = true)
    (hE : envelopeOk env chunk = true) :
    check env chunk exp assert =
      (match exp with
       | .callback f => f (objRemove chunk ["time", "pid", "hostname"])
       | .lit e => assert (objRemove chunk ["time", "pid", "hostname"]) e) := by
  rw [check_isObj env chunk exp assert hO]
  simp only [envelopeOk, Bool.and_eq_true, decide_eq_true_eq] at hE
  obtain ⟨⟨h1, h2⟩, h3⟩ := hE
  simp [h1, h2, h3]

/-- A chunk with no `time` field destructures `time` to `undefined`. -/
theorem objGet_of_not_has (v : JVal) (key : String) (h : objHas v key = false) :
    objGet v key = .undefined := by
  induction v with
  | objCons k val rest ihv ihr =>
      unfold objHas at h
      unfold objGet
      by_cases hk : k = key
      · simp [hk] at h
      · simp [hk] at h ⊢
        exact ihr h
  | _ => rfl

/-- When the time field is an invalid date, `check` on an object chunk
throws the timestamp assertion, whatever the other fields, the
expectation and the assert function are. -/
theorem check_invalid_time (env : Env) (chunk : JVal) (exp : Expected)
    (assert : JVal → JVal → Except JErr Unit) (hO : isObj chunk = true)
    (hT : jsDateOf env (objGet chunk "time") = none) :
    check env chunk exp assert = .error .timeNotLe := by
  rw [check_isObj env chunk exp assert hO]
  have h1 : envelopeTime env (objGet chunk "time") = false := by
    unfold envelopeTime
    rw [hT]
  simp [h1]

/-! ### Helper lemmas about the `waitFor` machine -/

/-- Settling a state that is already settled changes nothing. -/
theorem settleWF_of_some (o o2 : WFOutcome) (s : WFState) (h : s.outcome = some o) :
    settleWF o2 s = s := by
  unfold settleWF
  rw [h]

/-- Settling a pending state writes the outcome. -/
theorem settleWF_of_none (o2 : WFOutcome) (s : WFState) (h : s.outcome = none) :
    settleWF o2 s = { s with outcome := some o2 } := by
  unfold settleWF
  rw [h]

/-- A settled `waitFor` promise stays settled with the same outcome
through any further event. -/
theorem wfStep_outcome_mono (env : Env) (exp : Expected)
    (assert : JVal → JVal → Except JErr Unit) (mm : Int)
    (s : WFState) (e : WFEvent) (o : WFOutcome) (h : s.outcome = some o) :
    (wfStep env exp assert mm s e).outcome = some o := by
  cases e with
  | data chunk =>
      unfold wfStep
      by_cases hd : s.dataOn
      · simp only [hd, if_true]
        cases hc : check env chunk exp assert with
        | ok u =>
            rw [settleWF_of_some o .resolved _ (by simpa using h)]
            exact h
        | error er =>
            by_cases hb : (s.count + 1 : Int) > mm
            · simp only [hb, if_true]
              rw [settleWF_of_some o _ _ (by simpa using h)]
              exact h
            · simp only [hb, if_false]
              exact h
      · simp [hd, h]
  | err e2 =>
      unfold wfStep
      by_cases he : s.errorOn
      · simp only [he, if_true]
        rw [settleWF_of_some o _ _ h]
        exact h
      · simp [he, h]
  | timerFire =>
      unfold wfStep
      by_cases ht : s.timerOn
      · simp only [ht, if_true]
        rw [settleWF_of_some o _ _ (by simpa using h)]
        exact h
      · simp [ht, h]

/-- A settled `waitFor` promise stays settled through any sequence of
further events. -/
theorem wfFold_outcome_mono (env : Env) (exp : Expected)
    (assert : JVal → JVal → Except JErr Unit) (mm : Int) :
    ∀ (events : List WFEvent) (s : WFState) (o : WFOutcome), s.outcome = some o →
      (events.foldl (wfStep env exp assert mm) s).outcome = some o := by
  intro events
  induction events with
  | nil => intro s o h; simpa using h
  | cons e rest ih =>
      intro s o h
      simp only [List.foldl_cons]
      exact ih _ o (wfStep_outcome_mono env exp assert mm s e o h)

/-- Machine invariant for `waitFor`: while the promise is pending the
timer is still pending, and a settlement other than the stream-error
rejection implies both listeners are detached and the timer cancelled. -/
def WFInv (s : WFState) : Prop :=
  (s.outcome = none → s.timerOn = true) ∧
  (∀ o, s.outcome = some o → o.isStreamError = false →
    s.dataOn = false ∧ s.errorOn = false ∧ s.timerOn = false)

/-- The `waitFor` invariant is preserved by every event. -/
theorem wfStep_inv (env : Env) (exp : Expected)
    (assert : JVal → JVal → Except JErr Unit) (mm : Int)
    (s : WFState) (e : WFEvent) (h : WFInv s) : WFInv (wfStep env exp assert mm s e) := by
  obtain ⟨h1, h2⟩ := h
  cases e with
  | data chunk =>
      unfold wfStep
      by_cases hd : s.dataOn
      · simp only [hd, if_true]
        cases hc : check env chunk exp assert with
        | ok u =>
            cases ho : s.outcome with
            | none =>
                rw [settleWF_of_none _ _ (by simpa using ho)]
                exact ⟨by simp, by intro o hh _; simp⟩
            | some o =>
                rw [settleWF_of_some o _ _ (by simpa using ho)]
                exact ⟨by intro hh; simp [ho] at hh, by intro o2 hh hse; simp⟩
        | error er =>
            by_cases hb : (s.count + 1 : Int) > mm
            · simp only [hb, if_true]
              cases ho : s.outcome with
              | none =>
                  rw [settleWF_of_none _ _ (by simpa using ho)]
                  exact ⟨by simp, by intro o hh _; simp⟩
              | some o =>
                  rw [settleWF_of_some o _ _ (by simpa using ho)]
                  exact ⟨by intro hh; simp [ho] at hh, by intro o2 hh hse; simp⟩
            · simp only [hb, if_false]
              refine ⟨by intro hh; exact h1 (by simpa using hh), ?_⟩
              intro o hh hse
              exact absurd (h2 o (by simpa using hh) hse).1 (by simp [hd])
      · simp only [hd, if_false]
        exact ⟨h1, h2⟩
  | err e2 =>
      unfold wfStep
      by_cases he : s.errorOn
      · simp only [he, if_true]
        cases ho : s.outcome with
        | none =>
            rw [settleWF_of_none _ _ ho]
            refine ⟨by simp, ?_⟩
            intro o hh hse
            simp at hh
            rw [← hh] at hse
            simp [WFOutcome.isStreamError] at hse
        | some o =>
            rw [settleWF_of_some o _ _ ho]
            exact ⟨h1, h2⟩
      · simp only [he, if_false]
        exact ⟨h1, h2⟩
  | timerFire =>
      unfold wfStep
      by_cases ht : s.timerOn
      · simp only [ht, if_true]
        cases ho : s.outcome with
        | none =>
            rw [settleWF_of_none _ _ (by simpa using ho)]
            exact ⟨by simp, by intro o hh _; simp⟩
        | some o =>
            rw [settleWF_of_some o _ _ (by simpa using ho)]
            exact ⟨by simp [ho], by intro o2 hh _; simp⟩
      · simp only [ht, if_false]
        exact ⟨h1, h2⟩

/-- The `waitFor` invariant holds after any run. -/
theorem wfRun_inv (env : Env) (exp : Expected)
    (assert : JVal → JVal → Except JErr Unit) (mm : Int) (events : List WFEvent) :
    WFInv (wfRun env exp assert mm events) := by
  have base : WFInv wfInit := ⟨fun _ => rfl, by intro o hh; simp [wfInit] at hh⟩
  have step : ∀ (l : List WFEvent) (s : WFState), WFInv s →
      WFInv (l.foldl (wfStep env exp assert mm) s) := by
    intro l
    induction l with
    | nil => intro s hs; simpa using hs
    | cons e rest ih =>
        intro s hs
        simp only [List.foldl_cons]
        exact ih _ (wfStep_inv env exp assert mm s e hs)
  exact step events wfInit base

/-! ### Helper lemmas about the `once` machine -/

/-- Settling an already settled `once` promise changes nothing. -/
theorem settleOnce_of_some (o o2 : Except JErr Unit) (s : OnceState) (h : s.outcome = some o) :
    settleOnce o2 s = s := by
  unfold settleOnce
  rw [h]

/-- Settling a pending `once` promise writes the outcome. -/
theorem settleOnce_of_none (o2 : Except JErr Unit) (s : OnceState) (h : s.outcome = none) :
    settleOnce o2 s = { s with outcome := some o2 } := by
  unfold settleOnce
  rw [h]

/-- A settled `once` promise stays settled with the same outcome. -/
theorem onceStep_outcome_mono (env : Env) (exp : Expected)
    (assert : JVal → JVal → Except JErr Unit)
    (s : OnceState) (e : SEvent) (o : Except JErr Unit) (h : s.outcome = some o) :
    (onceStep env exp assert s e).outcome = some o := by
  cases e with
  | data chunk =>
      unfold onceStep
      by_cases hd : s.dataOn
      · simp only [hd, if_true]
        rw [settleOnce_of_some o _ _ (by simpa using h)]
        exact h
      · simp [hd, h]
  | err e2 =>
      unfold onceStep
      by_cases he : s.errorOn
      · simp only [he, if_true]
        rw [settleOnce_of_some o _ _ (by simpa using h)]
        exact h
      · simp [he, h]

/-- A settled `once` promise stays settled through any further events. -/
theorem onceFold_outcome_mono (env : Env) (exp : Expected)
    (assert : JVal → JVal → Except JErr Unit) :
    ∀ (events : List SEvent) (s : OnceState) (o : Except JErr Unit), s.outcome = some o →
      (events.foldl (onceStep env exp assert) s).outcome = some o := by
  intro events
  induction events with
  | nil => intro s o h; simpa using h
  | cons e rest ih =>
      intro s o h
      simp only [List.foldl_cons]
      exact ih _ o (onceStep_outcome_mono env exp assert s e o h)

/-- Machine invariant for `once`: the validator has not run while the
`data` listener is attached, and never runs more than once. -/
def OnceInv (s : OnceState) : Prop :=
  (s.dataOn = true → s.validatorRuns = 0) ∧ s.validatorRuns ≤ 1

/-- The `once` invariant is preserved by every event. -/
theorem onceStep_inv (env : Env) (exp : Expected)
    (assert : JVal → JVal → Except JErr Unit)
    (s : OnceState) (e : SEvent) (h : OnceInv s) : OnceInv (onceStep env exp assert s e) := by
  obtain ⟨h1, h2⟩ := h
  cases e with
  | data chunk =>
      unfold onceStep
      by_cases hd : s.dataOn
      · simp only [hd, if_true]
        have hr : s.validatorRuns = 0 := h1 hd
        cases ho : s.outcome with
        | none =>
            rw [settleOnce_of_none _ _ (by simpa using ho)]
            exact ⟨by intro hh; simp at hh, by simp [hr]⟩
        | some o =>
            rw [settleOnce_of_some o _ _ (by simpa using ho)]
            exact ⟨by intro hh; simp at hh, by simp [hr]⟩
      · simp only [hd, if_false]
        exact ⟨h1, h2⟩
  | err e2 =>
      unfold onceStep
      by_cases he : s.errorOn
      · simp only [he, if_true]
        cases ho : s.outcome with
        | none =>
            rw [settleOnce_of_none _ _ (by simpa using ho)]
            exact ⟨by intro hh; simp at hh ⊢; exact h1 hh, by simpa using h2⟩
        | some o =>
            rw [settleOnce_of_some o _ _ (by simpa using ho)]
            exact ⟨by intro hh; simp at hh ⊢; exact h1 hh, by simpa using h2⟩
      · simp only [he, if_false]
        exact ⟨h1, h2⟩

/-- The `once` invariant holds after any run. -/
theorem onceRun_inv (env : Env) (exp : Expected)
    (assert : JVal → JVal → Except JErr Unit) (events : List SEvent) :
    OnceInv (onceRun env exp assert events) := by
  have base : OnceInv onceInit := ⟨fun _ => rfl, by simp [onceInit]⟩
  have step : ∀ (l : List SEvent) (s : OnceState), OnceInv s →
      OnceInv (l.foldl (onceStep env exp assert) s) := by
    intro l
    induction l with
    | nil => intro s hs; simpa using hs
    | cons e rest ih =>
        intro s hs
        simp only [List.foldl_cons]
        exact ih _ (onceStep_inv env exp assert s e hs)
  exact step events onceInit base

/-- The first record delivered to a fresh `once` call settles its promise
with exactly the result of `check`, after detaching both listeners. -/
theorem onceRun_first_data (env : Env) (exp : Expected)
    (assert : JVal → JVal → Except JErr Unit) (chunk : JVal) (rest : List SEvent) :
    (onceRun env exp assert (.data chunk :: rest)).outcome
        = some (check env chunk exp assert) ∧
    (onceStep env exp assert onceInit (.data chunk)).dataOn = false ∧
    (onceStep env exp assert onceInit (.data chunk)).errorOn = false := by
  have hstep : onceStep env exp assert onceInit (.data chunk)
      = ⟨false, false, 1, some (check env chunk exp assert)⟩ := by
    unfold onceStep onceInit
    simp [settleOnce]
  refine ⟨?_, by rw [hstep], by rw [hstep]⟩
  unfold onceRun
  rw [List.foldl_cons, hstep]
  exact onceFold_outcome_mono env exp assert rest _ _ rfl

/-- A stream error delivered to a fresh `once` call settles its promise
with that error. -/
theorem onceRun_first_err (env : Env) (exp : Expected)
    (assert : JVal → JVal → Except JErr Unit) (e : JErr) (rest : List SEvent) :
    (onceRun env exp assert (.err e :: rest)).outcome = some (.error e) := by
  have hstep : onceStep env exp assert onceInit (.err e)
      = ⟨true, false, 0, some (.error e)⟩ := by
    unfold onceStep onceInit
    simp [settleOnce]
  unfold onceRun
  rw [List.foldl_cons, hstep]
  exact onceFold_outcome_mono env exp assert rest _ _ rfl

/-- `settleWF` only writes the outcome; the count is untouched. -/
theorem settleWF_count (o : WFOutcome) (s : WFState) : (settleWF o s).count = s.count := by
  unfold settleWF
  cases s.outcome <;> simp

/-- A record whose check succeeds resolves a pending `waitFor`: both
listeners are detached, the timer cancelled, the promise resolved. -/
theorem wfStep_data_ok (env : Env) (exp : Expected)
    (assert : JVal → JVal → Except JErr Unit) (mm : Int)
    (s : WFState) (chunk : JVal) (hc : check env chunk exp assert = .ok ())
    (hd : s.dataOn = true) (ho : s.outcome = none) :
    wfStep env exp assert mm s (.data chunk)
      = ⟨s.count, false, false, false, some .resolved⟩ := by
  unfold wfStep
  simp only [hd, if_true, hc]
  rw [settleWF_of_none _ _ (by simpa using ho)]

/-- A record whose check throws, while the budget is not yet exceeded,
only increments the non-matching count. -/
theorem wfStep_data_fail_under (env : Env) (exp : Expected)
    (assert : JVal → JVal → Except JErr Unit) (mm : Int)
    (s : WFState) (chunk : JVal) (er : JErr)
    (hc : check env chunk exp assert = .error er)
    (hd : s.dataOn = true) (hb : ¬ ((s.count + 1 : Int) > mm)) :
    wfStep env exp assert mm s (.data chunk) = { s with count := s.count + 1 } := by
  unfold wfStep
  simp [hd, hc, hb]

/-- A record whose check throws, when it makes the count exceed the
budget, detaches both listeners, cancels the timer and rejects a pending
`waitFor` with the max-message-count error. -/
theorem wfStep_data_fail_over (env : Env) (exp : Expected)
    (assert : JVal → JVal → Except JErr Unit) (mm : Int)
    (s : WFState) (chunk : JVal) (er : JErr)
    (hc : check env chunk exp assert = .error er)
    (hd : s.dataOn = true) (hb : (s.count + 1 : Int) > mm) (ho : s.outcome = none) :
    wfStep env exp assert mm s (.data chunk)
      = ⟨s.count + 1, false, false, false,
         some (.maxReject ("Max message count reached on waitFor: " ++ wfIdentifier exp))⟩ := by
  unfold wfStep
  simp only [hd, if_true, hc, hb]
  rw [settleWF_of_none _ _ (by simpa using ho)]

/-- Feeding a fresh-but-counting `waitFor` state a run of records that
all fail the check, staying within the budget, just accumulates the
count: listeners stay attached, the timer stays pending, the promise
stays pending. -/
theorem wfFold_skip (env : Env) (exp : Expected)
    (assert : JVal → JVal → Except JErr Unit) (mm : Int) :
    ∀ (recs : List JVal) (c : Nat),
      ((c : Int) + recs.length ≤ mm) →
      (∀ r ∈ recs, ∃ er, check env r exp assert = .error er) →
      List.foldl (wfStep env exp assert mm) ⟨c, true, true, true, none⟩
          (recs.map WFEvent.data)
        = ⟨c + recs.length, true, true, true, none⟩ := by
  intro recs
  induction recs with
  | nil => intro c _ _; simp
  | cons r tl ih =>
      intro c hb hall
      obtain ⟨er, her⟩ := hall r (by simp)
      have hnb : ¬ (((⟨c, true, true, true, none⟩ : WFState).count + 1 : Int) > mm) := by
        simp only [List.length_cons] at hb
        push_neg
        push_cast at hb ⊢
        omega
      simp only [List.map_cons, List.foldl_cons]
      rw [wfStep_data_fail_under env exp assert mm _ r er her rfl hnb]
      have step2 := ih (c + 1)
        (by simp only [List.length_cons] at hb; push_cast at hb ⊢; omega)
        (fun r2 h2 => hall r2 (by simp [h2]))
      simp only [show ({ (⟨c, true, true, true, none⟩ : WFState) with count := c + 1 } : WFState)
          = (⟨c + 1, true, true, true, none⟩ : WFState) from rfl]
      rw [step2]
      simp only [List.length_cons, WFState.mk.injEq, and_true, true_and]
      omega

/-! ### Helper lemmas about `consecutive` and the sink -/

/-- When the next `pre.length` records each pass their check against the
expectation at the matching index, and they are exactly the expectations
still missing, the loop accepts them all and breaks right after the last
one, leaving `rest` unconsumed. -/
theorem consLoop_ok (env : Env) (exps : List Expected)
    (assert : JVal → JVal → Except JErr Unit) :
    ∀ (pre : List JVal) (i : Nat) (rest : List JVal),
      pre ≠ [] → i + pre.length = exps.length →
      (∀ j, j < pre.length →
        check env (pre.getD j .undefined) (exps.getD (i + j) (.lit .undefined)) assert = .ok ()) →
      consecutiveLoop env exps assert i (pre ++ rest) = .ok (exps.length, rest) := by
  intro pre
  induction pre with
  | nil => intro i rest hne; exact absurd rfl hne
  | cons a tl ih =>
      intro i rest hne hlen hall
      have h0 : check env a (exps.getD i (.lit .undefined)) assert = .ok () := by
        have := hall 0 (by simp)
        simpa using this
      simp only [List.cons_append, consecutiveLoop, h0]
      rcases tl with _ | ⟨b, tl2⟩
      · have hl : i + 1 = exps.length := by simpa using hlen
        simp [hl]
      · have hne2 : ¬ (i + 1 = exps.length) := by
          simp only [List.length_cons] at hlen
          omega
        have hlen2 : (i + 1) + (b :: tl2).length = exps.length := by
          simp only [List.length_cons] at hlen ⊢
          omega
        have hall2 : ∀ j, j < (b :: tl2).length →
            check env ((b :: tl2).getD j .undefined)
              (exps.getD ((i + 1) + j) (.lit .undefined)) assert = .ok () := by
          intro j hj
          have harith : i + (j + 1) = (i + 1) + j := by omega
          have := hall (j + 1) (by simp only [List.length_cons] at hj ⊢; omega)
          rw [harith] at this
          simpa using this
        simp only [hne2, if_false]
        exact ih (i + 1) rest (by simp) hlen2 hall2

/-- When the stream ends with expectations still missing, and every
record seen so far passed its check, the loop drains the whole stream
without breaking. -/
theorem consLoop_exhaust (env : Env) (exps : List Expected)
    (assert : JVal → JVal → Except JErr Unit) :
    ∀ (recs : List JVal) (i : Nat),
      i + recs.length < exps.length →
      (∀ j, j < recs.length →
        check env (recs.getD j .undefined) (exps.getD (i + j) (.lit .undefined)) assert = .ok ()) →
      consecutiveLoop env exps assert i recs = .ok (i + recs.length, []) := by
  intro recs
  induction recs with
  | nil => intro i _ _; simp [consecutiveLoop]
  | cons a tl ih =>
      intro i hlt hall
      have h0 : check env a (exps.getD i (.lit .undefined)) assert = .ok () := by
        have := hall 0 (by simp)
        simpa using this
      simp only [consecutiveLoop, h0]
      have hne2 : ¬ (i + 1 = exps.length) := by
        simp only [List.length_cons] at hlt
        omega
      have hlt2 : (i + 1) + tl.length < exps.length := by
        simp only [List.length_cons] at hlt
        omega
      have hall2 : ∀ j, j < tl.length →
          check env (tl.getD j .undefined) (exps.getD ((i + 1) + j) (.lit .undefined)) assert
            = .ok () := by
        intro j hj
        have harith : i + (j + 1) = (i + 1) + j := by omega
        have := hall (j + 1) (by simp only [List.length_cons] at hj ⊢; omega)
        rw [harith] at this
        simpa using this
      simp only [hne2, if_false]
      rw [ih (i + 1) hlt2 hall2]
      simp only [List.length_cons, Prod.mk.injEq, Except.ok.injEq, and_true]
      omega

/-- With both sink flags off, a line that fails to decode leaves the sink
state untouched. -/
theorem sinkWrite_noflags_error (decode : String → Except JErr JVal)
    (s : SinkState) (line : String) (err : JErr) (h : decode line = .error err) :
    sinkWrite decode false false s line = s := by
  obtain ⟨recs, errs, d⟩ := s
  unfold sinkWrite
  by_cases hd : d
  · simp [hd]
  · simp [hd, h]

/-- A destroyed sink ignores every further line. -/
theorem sinkFold_destroyed (decode : String → Except JErr JVal) (dOE eEE : Bool) :
    ∀ (lines : List String) (s : SinkState), s.destroyed = true →
      List.foldl (sinkWrite decode dOE eEE) s lines = s := by
  intro lines
  induction lines with
  | nil => intro s _; rfl
  | cons line rest ih =>
      intro s h
      have hstep : sinkWrite decode dOE eEE s line = s := by
        unfold sinkWrite
        simp [h]
      simp only [List.foldl_cons, hstep]
      exact ih s h

/-- A record whose check throws never resolves a pending `waitFor`; it
only increments the non-matching count (possibly tipping it over the
budget). -/
theorem wfStep_data_fail_not_resolved (env : Env) (exp : Expected)
    (assert : JVal → JVal → Except JErr Unit) (mm : Int)
    (s : WFState) (chunk : JVal) (er : JErr)
    (hc : check env chunk exp assert = .error er)
    (hd : s.dataOn = true) (ho : s.outcome = none) :
    (wfStep env exp assert mm s (.data chunk)).outcome ≠ some .resolved ∧
    (wfStep env exp assert mm s (.data chunk)).count = s.count + 1 := by
  by_cases hb : (s.count + 1 : Int) > mm
  · rw [wfStep_data_fail_over env exp assert mm s chunk er hc hd hb ho]
    simp
  · rw [wfStep_data_fail_under env exp assert mm s chunk er hc hd hb]
    simp [ho]

/-! ### Claim theorems -/

/-- C1 (counterexample): a record violating an envelope check (wrong
process id) makes `check` throw, and its body would have matched the
expectation — yet `waitFor` does not reject: it treats the record as
non-matching and resolves on the next record.  This refutes the claim
that an envelope violation causes every one of the three waiters to
reject. -/
theorem envelope_violation_waitFor_resolves :
    envelopeOk env0 recBadPid = false ∧
    check env0 recBadPid exp0 deepStrictEqual = .error .pidMismatch ∧
    deepStrictEqual (objRemove recBadPid ["time", "pid", "hostname"]) body0 = .ok () ∧
    (wfRun env0 exp0 deepStrictEqual 100 [.data recBadPid, .data rec0]).outcome
      = some .resolved ∧
    (wfRun env0 exp0 deepStrictEqual 100 [.data recBadPid, .data rec0]).count = 1 := by
  decide

/-- C1 (amended): for every object record, `check` asserts the three
envelope fields before any expectation comparison: when they all pass,
`check` is exactly the expectation comparison on the remainder; when any
fails, `check` throws the first failing envelope assertion independently
of the expectation and of the assert function, so `once` rejects with it,
`consecutive` aborts with it, while `waitFor` never accepts the record as
a match — it counts it as non-matching and keeps polling. -/
theorem envelope_checks_precede_expectation (env : Env) (chunk : JVal)
    (assert assert2 : JVal → JVal → Except JErr Unit) (hO : isObj chunk = true) :
    (envelopeOk env chunk = true →
      ∀ (f : JVal → Except JErr Unit) (e : JVal),
        check env chunk (.callback f) assert
          = f (objRemove chunk ["time", "pid", "hostname"]) ∧
        check env chunk (.lit e) assert
          = assert (objRemove chunk ["time", "pid", "hostname"]) e) ∧
    (envelopeOk env chunk = false →
      (∀ exp, check env chunk exp assert = .error (envelopeFail env chunk)) ∧
      (∀ exp exp2, check env chunk exp assert = check env chunk exp2 assert2) ∧
      (∀ (exp : Expected) (rest : List SEvent),
        (onceRun env exp assert (.data chunk :: rest)).outcome
          = some (.error (envelopeFail env chunk))) ∧
      (∀ (exps : List Expected) (recs : List JVal),
        consecutive env exps assert (chunk :: recs)
          = .error (envelopeFail env chunk)) ∧
      (∀ (exp : Expected) (mm : Int) (s : WFState),
        s.dataOn = true → s.outcome = none →
        (wfStep env exp assert mm s (.data chunk)).outcome ≠ some .resolved ∧
        (wfStep env exp assert mm s (.data chunk)).count = s.count + 1)) := by
  constructor
  · intro hE f e
    constructor
    · rw [check_envelope_ok env chunk (.callback f) assert hO hE]
    · rw [check_envelope_ok env chunk (.lit e) assert hO hE]
  · intro hE
    refine ⟨fun exp => check_envelope_fail env chunk exp assert hO hE, ?_, ?_, ?_, ?_⟩
    · intro exp exp2
      rw [check_envelope_fail env chunk exp assert hO hE,
          check_envelope_fail env chunk exp2 assert2 hO hE]
    · intro exp rest
      rw [(onceRun_first_data env exp assert chunk rest).1,
          check_envelope_fail env chunk exp assert hO hE]
    · intro exps recs
      have hc := check_envelope_fail env chunk ((exps[0]?).getD (.lit .undefined)) assert hO hE
      simp [consecutive, consecutiveLoop, hc]
    · intro exp mm s hd ho
      exact wfStep_data_fail_not_resolved env exp assert mm s chunk
        (envelopeFail env chunk)
        (check_envelope_fail env chunk exp assert hO hE) hd ho

/-- C1 (witness): the amended theorem applied to the wrong-pid record
and, for the envelope-passing direction, to the valid record. -/
theorem envelope_checks_precede_expectation_witness :
    check env0 recBadPid exp0 deepStrictEqual = .error (envelopeFail env0 recBadPid) ∧
    (onceRun env0 exp0 deepStrictEqual [.data recBadPid]).outcome
      = some (.error (envelopeFail env0 recBadPid)) ∧
    check env0 rec0 (.lit body0) deepStrictEqual
      = deepStrictEqual (objRemove rec0 ["time", "pid", "hostname"]) body0 := by
  refine ⟨?_, ?_, ?_⟩
  · exact ((envelope_checks_precede_expectation env0 recBadPid deepStrictEqual
      deepStrictEqual (by decide)).2 (by decide)).1 exp0
  · exact ((envelope_checks_precede_expectation env0 recBadPid deepStrictEqual
      deepStrictEqual (by decide)).2 (by decide)).2.2.1 exp0 []
  · exact (((envelope_checks_precede_expectation env0 rec0 deepStrictEqual
      deepStrictEqual (by decide)).1 (by decide)) (fun _ => Except.ok ()) body0).2

/-- C2 (counterexample): with an empty expectation list, the claim says
`consecutive` stops without consuming records once every expectation has
been matched (vacuously at the start) — but the loop only tests the break
condition after processing a record, so it still consumes the first
arriving record and fails comparing it against `undefined`. -/
theorem consecutive_empty_expectations_consumes :
    consecutive env0 [] deepStrictEqual [rec0] ≠ .ok [rec0] ∧
    consecutive env0 [] deepStrictEqual [rec0] = .error .notDeepEqual := by
  decide

/-- C2 (amended): for every nonempty expectation list, `consecutive`
matches the i-th arriving record against the i-th expectation in arrival
order: when the first `exps.length` records all pass their check it
succeeds leaving exactly the later records unconsumed, and when the
stream ends early — every record seen having passed — it throws the
distinguished stream-ended error.  (With an empty expectation list the
loop still consumes the first arriving record, per the counterexample.) -/
theorem consecutive_inorder_amended (env : Env) (exps : List Expected)
    (assert : JVal → JVal → Except JErr Unit) (hne : exps ≠ []) :
    (∀ (pre rest : List JVal), pre.length = exps.length →
      (∀ j, j < exps.length →
        check env (pre.getD j .undefined) (exps.getD j (.lit .undefined)) assert = .ok ()) →
      consecutive env exps assert (pre ++ rest) = .ok rest) ∧
    (∀ recs : List JVal, recs.length < exps.length →
      (∀ j, j < recs.length →
        check env (recs.getD j .undefined) (exps.getD j (.lit .undefined)) assert = .ok ()) →
      consecutive env exps assert recs
        = .error (.custom "Stream ended before all expected logs were received")) := by
  constructor
  · intro pre rest hlen hall
    have hpne : pre ≠ [] := by
      intro h
      rw [h] at hlen
      exact hne (List.eq_nil_of_length_eq_zero hlen.symm)
    have hloop := consLoop_ok env exps assert pre 0 rest hpne (by simpa using hlen)
      (by intro j hj; simpa using hall j (by omega))
    unfold consecutive
    rw [hloop]
    simp
  · intro recs hlt hall
    have hloop := consLoop_exhaust env exps assert recs 0 (by simpa using hlt)
      (by intro j hj; simpa using hall j hj)
    unfold consecutive
    rw [hloop]
    simp [hlt]

/-- C2 (witness): the amended theorem at one expectation and two records
(success leaves the second record unconsumed), and at two expectations
with a single record (stream-ended error). -/
theorem consecutive_inorder_amended_witness :
    consecutive env0 [exp0] deepStrictEqual ([rec0] ++ [recBye]) = .ok [recBye] ∧
    consecutive env0 [exp0, exp0] deepStrictEqual [rec0]
      = .error (.custom "Stream ended before all expected logs were received") := by
  constructor
  · exact (consecutive_inorder_amended env0 [exp0] deepStrictEqual (by simp)).1
      [rec0] [recBye] rfl
      (by intro j hj; have hj0 : j = 0 := Nat.lt_one_iff.mp (by simpa using hj); subst hj0; decide)
  · exact (consecutive_inorder_amended env0 [exp0, exp0] deepStrictEqual (by simp)).2
      [rec0] (by simp)
      (by intro j hj; have hj0 : j = 0 := Nat.lt_one_iff.mp (by simpa using hj); subst hj0; decide)

/-- C3: in `waitFor`, every record on which the validator throws
increments the non-matching count; when that count exceeds
`maxMessages`, the handler detaches both listeners, cancels the timer
and rejects a pending promise with the max-message-count error, whose
identifier is the expectation's stringified `msg` field for a literal
expectation (the fixed text `undefined` when the field is missing) and
the fixed placeholder `[function]` for a callback expectation. -/
theorem waitFor_budget_and_identifier (env : Env) (exp : Expected)
    (assert : JVal → JVal → Except JErr Unit) (mm : Int) (s : WFState)
    (chunk : JVal) (er : JErr)
    (hd : s.dataOn = true) (hc : check env chunk exp assert = .error er) :
    ((wfStep env exp assert mm s (.data chunk)).count = s.count + 1) ∧
    ((s.count + 1 : Int) > mm → s.outcome = none →
      wfStep env exp assert mm s (.data chunk)
        = ⟨s.count + 1, false, false, false,
           some (.maxReject
             ("Max message count reached on waitFor: " ++ wfIdentifier exp))⟩) ∧
    (∀ (v : JVal) (m : String), objGet v "msg" = .str m → wfIdentifier (.lit v) = m) ∧
    (∀ f, wfIdentifier (.callback f) = "[function]") ∧
    (∀ v : JVal, objGet v "msg" = .undefined → wfIdentifier (.lit v) = "undefined") := by
  refine ⟨?_, ?_, ?_, ?_, ?_⟩
  · unfold wfStep
    simp only [hd, if_true, hc]
    by_cases hb : (s.count + 1 : Int) > mm
    · simp only [hb, if_true]
      rw [settleWF_count]
    · simp [hb]
  · intro hb ho
    exact wfStep_data_fail_over env exp assert mm s chunk er hc hd hb ho
  · intro v m hm
    simp [wfIdentifier, hm, jsToString]
  · intro f
    rfl
  · intro v hm
    simp [wfIdentifier, hm, jsToString]

/-- C3 (witness): with `maxMessages = 2` and two non-matching records
already counted, a third non-matching record trips the budget and the
rejection message carries the expectation's `msg` field. -/
theorem waitFor_budget_and_identifier_witness :
    (wfStep env0 exp0 deepStrictEqual 2 ⟨2, true, true, true, none⟩
        (.data recBye)).count = 3 ∧
    wfStep env0 exp0 deepStrictEqual 2 ⟨2, true, true, true, none⟩ (.data recBye)
      = ⟨3, false, false, false,
         some (.maxReject "Max message count reached on waitFor: hello world")⟩ ∧
    wfIdentifier exp0 = "hello world" := by
  have h := waitFor_budget_and_identifier env0 exp0 deepStrictEqual 2
    ⟨2, true, true, true, none⟩ recBye .notDeepEqual rfl (by decide)
  refine ⟨by simpa using h.1, ?_, ?_⟩
  · have h2 := h.2.1 (by decide) rfl
    rw [h2]
    decide
  · exact h.2.2.1 body0 "hello world" (by decide)

/-- C4 (counterexample): on the stream-error path `waitFor` settles with
the error but detaches nothing and leaves the timer running; the still
attached data handler even keeps counting afterwards.  This refutes the
claim that listeners are detached and the timer cancelled at settlement
on every path. -/
theorem waitFor_stream_error_no_cleanup :
    (wfRun env0 exp0 deepStrictEqual 100 [.err .typeErr]).outcome
      = some (.errorReject .typeErr) ∧
    (wfRun env0 exp0 deepStrictEqual 100 [.err .typeErr]).dataOn = true ∧
    (wfRun env0 exp0 deepStrictEqual 100 [.err .typeErr]).errorOn = true ∧
    (wfRun env0 exp0 deepStrictEqual 100 [.err .typeErr]).timerOn = true ∧
    (wfRun env0 exp0 deepStrictEqual 100 [.err .typeErr, .data recBye]).count = 1 := by
  decide

/-- C4 (amended): `waitFor` settles at most once and, with the pending
timer bound to fire, at least once; on the resolve, budget-exceeded and
timeout paths both listeners are detached and the timer cancelled at
settlement, after which no handler does anything; on the stream-error
path the promise is rejected with the error but the listeners stay
attached and the timer keeps running (its later firing performs the
detach), though no later callback can change the settled outcome. -/
theorem waitFor_settlement_amended (env : Env) (exp : Expected)
    (assert : JVal → JVal → Except JErr Unit) (mm : Int) :
    (∀ (s : WFState) (e : WFEvent) (o : WFOutcome), s.outcome = some o →
      (wfStep env exp assert mm s e).outcome = some o) ∧
    (∀ events : List WFEvent,
      ((wfRun env exp assert mm (events ++ [.timerFire])).outcome).isSome = true) ∧
    (∀ (events : List WFEvent) (o : WFOutcome),
      (wfRun env exp assert mm events).outcome = some o → o.isStreamError = false →
      (wfRun env exp assert mm events).dataOn = false ∧
      (wfRun env exp assert mm events).errorOn = false ∧
      (wfRun env exp assert mm events).timerOn = false) ∧
    (∀ (s : WFState) (e : JErr), s.outcome = none → s.errorOn = true →
      wfStep env exp assert mm s (.err e) = { s with outcome := some (.errorReject e) }) ∧
    (∀ (s : WFState) (e : WFEvent),
      s.dataOn = false → s.errorOn = false → s.timerOn = false →
      wfStep env exp assert mm s e = s) := by
  refine ⟨?_, ?_, ?_, ?_, ?_⟩
  · exact fun s e o h => wfStep_outcome_mono env exp assert mm s e o h
  · intro events
    have hinv := wfRun_inv env exp assert mm events
    have hsplit : wfRun env exp assert mm (events ++ [.timerFire])
        = wfStep env exp assert mm (wfRun env exp assert mm events) .timerFire := by
      unfold wfRun
      rw [List.foldl_append, List.foldl_cons, List.foldl_nil]
    rw [hsplit]
    cases ho : (wfRun env exp assert mm events).outcome with
    | some o =>
        rw [wfStep_outcome_mono env exp assert mm _ _ o ho]
        rfl
    | none =>
        have ht := hinv.1 ho
        unfold wfStep
        simp only [ht, if_true]
        rw [settleWF_of_none _ _ (by simpa using ho)]
        rfl
  · intro events o ho hse
    exact (wfRun_inv env exp assert mm events).2 o ho hse
  · intro s e ho he
    show (if s.errorOn = true then settleWF (WFOutcome.errorReject e) s else s)
      = { s with outcome := some (WFOutcome.errorReject e) }
    rw [if_pos he]
    exact settleWF_of_none _ _ ho
  · intro s e hd he ht
    cases e with
    | data chunk => unfold wfStep; simp [hd]
    | err e2 => unfold wfStep; simp [he]
    | timerFire => unfold wfStep; simp [ht]

/-- C4 (witness): the amended theorem instantiated at concrete states —
stability of a settled outcome, settlement when the timer fires, cleanup
after a resolving run, the no-cleanup error step, and the inertness of a
cleaned-up state. -/
theorem waitFor_settlement_amended_witness :
    (wfStep env0 exp0 deepStrictEqual 100 ⟨0, true, true, true, some .resolved⟩
        .timerFire).outcome = some .resolved ∧
    ((wfRun env0 exp0 deepStrictEqual 100 ([] ++ [.timerFire])).outcome).isSome = true ∧
    ((wfRun env0 exp0 deepStrictEqual 100 [.data rec0]).dataOn = false ∧
      (wfRun env0 exp0 deepStrictEqual 100 [.data rec0]).errorOn = false ∧
      (wfRun env0 exp0 deepStrictEqual 100 [.data rec0]).timerOn = false) ∧
    wfStep env0 exp0 deepStrictEqual 100 ⟨0, true, true, true, none⟩ (.err .typeErr)
      = ⟨0, true, true, true, some (.errorReject .typeErr)⟩ ∧
    wfStep env0 exp0 deepStrictEqual 100 ⟨5, false, false, false, some .resolved⟩
        .timerFire
      = ⟨5, false, false, false, some .resolved⟩ := by
  have h := waitFor_settlement_amended env0 exp0 deepStrictEqual 100
  refine ⟨h.1 _ _ .resolved rfl, h.2.1 [], h.2.2.1 [.data rec0] .resolved (by decide) rfl,
    ?_, h.2.2.2.2 _ _ rfl rfl rfl⟩
  have h4 := h.2.2.2.1 ⟨0, true, true, true, none⟩ .typeErr rfl rfl
  rw [h4]

/-- C5: `once` registers one-shot record and error listeners; the first
event wins: a first record settles the promise with exactly the result
of the validator (resolve on success, reject with the thrown failure)
after detaching both listeners, a first stream error rejects with that
error, and over any event sequence the promise keeps the outcome of that
first event and the validator runs at most once. -/
theorem once_one_shot (env : Env) (exp : Expected)
    (assert : JVal → JVal → Except JErr Unit) :
    (∀ (chunk : JVal) (rest : List SEvent),
      (onceRun env exp assert (.data chunk :: rest)).outcome
        = some (check env chunk exp assert) ∧
      (onceStep env exp assert onceInit (.data chunk)).dataOn = false ∧
      (onceStep env exp assert onceInit (.data chunk)).errorOn = false) ∧
    (∀ (e : JErr) (rest : List SEvent),
      (onceRun env exp assert (.err e :: rest)).outcome = some (.error e)) ∧
    (∀ events : List SEvent, (onceRun env exp assert events).validatorRuns ≤ 1) := by
  exact ⟨fun chunk rest => onceRun_first_data env exp assert chunk rest,
         fun e rest => onceRun_first_err env exp assert e rest,
         fun events => (onceRun_inv env exp assert events).2⟩

/-- C6 (counterexample): the option recognized by `waitFor` is named
`timeout`, not `timeoutMs`: passing `{ timeoutMs: 5000 }` as the third
argument leaves the wait budget at the default 1000, while
`{ timeout: 5000 }` sets it to 5000. -/
theorem waitFor_timeoutMs_not_recognized :
    (waitForConfig (.objArg (.objCons "timeoutMs" (.num 5000) .objNil)) .objNil).timeout
      ≠ .num 5000 ∧
    (waitForConfig (.objArg (.objCons "timeoutMs" (.num 5000) .objNil)) .objNil).timeout
      = .num DEFAULT_WAIT_FOR_TIMEOUT ∧
    (waitForConfig (.objArg (.objCons "timeout" (.num 5000) .objNil)) .objNil).timeout
      = .num 5000 := by
  decide

/-- C6 (amended): when `waitFor`'s third positional argument is an object
it is reinterpreted as the options, the fourth argument is ignored, and
the equality function defaults to deep structural equality; the
recognized options and defaults are `timeout = 1000`, `maxMessages =
100` and `debug = false`. -/
theorem waitFor_options_object_amended (o opts : JVal) :
    ((waitForConfig (.objArg o) opts).assertFn = deepStrictEqual) ∧
    (∀ opts2, waitForConfig (.objArg o) opts = waitForConfig (.objArg o) opts2) ∧
    (objGet o "maxMessages" = .undefined →
      (waitForConfig (.objArg o) opts).maxMessages = .num DEFAULT_MAX_MESSAGES) ∧
    (objGet o "timeout" = .undefined →
      (waitForConfig (.objArg o) opts).timeout = .num DEFAULT_WAIT_FOR_TIMEOUT) ∧
    (objGet o "debug" = .undefined →
      (waitForConfig (.objArg o) opts).debug = .bool false) ∧
    (∀ v, truthy v = true → objGet o "maxMessages" = v →
      (waitForConfig (.objArg o) opts).maxMessages = v) ∧
    (∀ v, truthy v = true → objGet o "timeout" = v →
      (waitForConfig (.objArg o) opts).timeout = v) ∧
    (∀ v, truthy v = true → objGet o "debug" = v →
      (waitForConfig (.objArg o) opts).debug = v) := by
  refine ⟨rfl, fun opts2 => rfl, ?_, ?_, ?_, ?_, ?_, ?_⟩
  · intro h
    simp [waitForConfig, orDefault, h, truthy]
  · intro h
    simp [waitForConfig, orDefault, h, truthy]
  · intro h
    simp [waitForConfig, orDefault, h, truthy]
  · intro v hv h
    simp [waitForConfig, orDefault, h, hv]
  · intro v hv h
    simp [waitForConfig, orDefault, h, hv]
  · intro v hv h
    simp [waitForConfig, orDefault, h, hv]

/-- C6 (witness): the amended theorem at an empty options object (all
defaults) and at an object carrying a `timeout`. -/
theorem waitFor_options_object_amended_witness :
    (waitForConfig (.objArg .objNil) .objNil).assertFn = deepStrictEqual ∧
    (waitForConfig (.objArg .objNil) .objNil).maxMessages = .num 100 ∧
    (waitForConfig (.objArg .objNil) .objNil).timeout = .num 1000 ∧
    (waitForConfig (.objArg .objNil) .objNil).debug = .bool false ∧
    (waitForConfig (.objArg (.objCons "timeout" (.num 5000) .objNil)) .objNil).timeout
      = .num 5000 := by
  have h := waitFor_options_object_amended .objNil .objNil
  have h2 := waitFor_options_object_amended (.objCons "timeout" (.num 5000) .objNil) .objNil
  refine ⟨h.1, ?_, ?_, h.2.2.2.2.1 rfl, h2.2.2.2.2.2.2.1 (.num 5000) (by decide) rfl⟩
  · exact (h.2.2.1 rfl).trans (by decide)
  · exact (h.2.2.2.1 rfl).trans (by decide)

/-- C7: for a line that fails to decode, the sink's two flags act
independently: the error list grows by the decode error exactly when
`emitErrorEvent` is set, the stream is destroyed exactly when
`destroyOnError` is set, and no record is emitted; with neither flag the
line is silently dropped (the state is unchanged and later lines are
processed as if it never arrived); with both flags a bad line yields
exactly one error event and a destroyed stream regardless of what
follows. -/
theorem sink_decode_error_flags (decode : String → Except JErr JVal) (dOE eEE : Bool) :
    (∀ (s : SinkState) (line : String) (err : JErr), s.destroyed = false →
      decode line = .error err →
      sinkWrite decode dOE eEE s line
        = ⟨s.records, s.errors ++ (if eEE then [err] else []), dOE⟩) ∧
    (∀ (s : SinkState) (line : String) (v : JVal), s.destroyed = false →
      decode line = .ok v →
      sinkWrite decode dOE eEE s line = ⟨s.records ++ [v], s.errors, false⟩) ∧
    (∀ (bad : String) (err : JErr) (pre post : List String), decode bad = .error err →
      sinkRun decode false false (pre ++ bad :: post)
        = sinkRun decode false false (pre ++ post)) ∧
    (∀ (bad : String) (err : JErr) (post : List String), decode bad = .error err →
      sinkRun decode true true (bad :: post) = ⟨[], [err], true⟩) := by
  refine ⟨?_, ?_, ?_, ?_⟩
  · intro s line err hd h
    obtain ⟨recs, errs, d⟩ := s
    simp only at hd
    subst hd
    unfold sinkWrite
    simp [h]
  · intro s line v hd h
    obtain ⟨recs, errs, d⟩ := s
    simp only at hd
    subst hd
    unfold sinkWrite
    simp [h]
  · intro bad err pre post h
    unfold sinkRun
    rw [List.foldl_append, List.foldl_append, List.foldl_cons,
        sinkWrite_noflags_error decode _ bad err h]
  · intro bad err post h
    unfold sinkRun
    rw [List.foldl_cons]
    have h1 : sinkWrite decode true true sinkInit bad = ⟨[], [err], true⟩ := by
      unfold sinkWrite sinkInit
      simp [h]
    rw [h1]
    exact sinkFold_destroyed decode true true post _ rfl

/-- C7 (witness): the flag behaviors at a concrete decode function, in
all four flag combinations, plus the two run-level scenarios. -/
theorem sink_decode_error_flags_witness :
    sinkWrite decode0 true true sinkInit "bad" = ⟨[], [.custom "Unexpected token"], true⟩ ∧
    sinkWrite decode0 false true sinkInit "bad"
      = ⟨[], [.custom "Unexpected token"], false⟩ ∧
    sinkWrite decode0 true false sinkInit "bad" = ⟨[], [], true⟩ ∧
    sinkWrite decode0 false false sinkInit "bad" = sinkInit ∧
    sinkRun decode0 false false (["rec"] ++ "bad" :: ["rec"])
      = sinkRun decode0 false false (["rec"] ++ ["rec"]) ∧
    sinkRun decode0 true true ("bad" :: ["rec"]) = ⟨[], [.custom "Unexpected token"], true⟩ := by
  refine ⟨?_, ?_, ?_, ?_, ?_, ?_⟩
  · exact ((sink_decode_error_flags decode0 true true).1 sinkInit "bad"
      (.custom "Unexpected token") rfl (by decide)).trans (by decide)
  · exact ((sink_decode_error_flags decode0 false true).1 sinkInit "bad"
      (.custom "Unexpected token") rfl (by decide)).trans (by decide)
  · exact ((sink_decode_error_flags decode0 true false).1 sinkInit "bad"
      (.custom "Unexpected token") rfl (by decide)).trans (by decide)
  · exact ((sink_decode_error_flags decode0 false false).1 sinkInit "bad"
      (.custom "Unexpected token") rfl (by decide)).trans (by decide)
  · exact (sink_decode_error_flags decode0 false false).2.2.1 "bad"
      (.custom "Unexpected token") ["rec"] ["rec"] (by decide)
  · exact (sink_decode_error_flags decode0 true true).2.2.2 "bad"
      (.custom "Unexpected token") ["rec"] (by decide)

/-- C8: `waitFor` resolves as soon as a record passing the validator
arrives, detaching both listeners and cancelling the timer at that
moment, after any run of non-matching records whose count stayed at or
below `maxMessages` (and with the timer not yet fired). -/
theorem waitFor_resolves_after_skips (env : Env) (exp : Expected)
    (assert : JVal → JVal → Except JErr Unit) (mm : Int)
    (recs : List JVal) (m : JVal)
    (hall : ∀ r ∈ recs, ∃ er, check env r exp assert = .error er)
    (hbound : (recs.length : Int) ≤ mm)
    (hm : check env m exp assert = .ok ()) :
    wfRun env exp assert mm (recs.map WFEvent.data ++ [WFEvent.data m])
      = ⟨recs.length, false, false, false, some .resolved⟩ := by
  unfold wfRun
  rw [List.foldl_append]
  have hskip := wfFold_skip env exp assert mm recs 0 (by simpa using hbound) hall
  have hinit : (wfInit : WFState) = ⟨0, true, true, true, none⟩ := rfl
  rw [hinit, hskip, List.foldl_cons, List.foldl_nil]
  rw [wfStep_data_ok env exp assert mm _ m hm rfl rfl]
  simp

/-- C8 (witness): with budget 2, one non-matching record then a matching
one: `waitFor` resolves with the listeners detached and timer
cancelled. -/
theorem waitFor_resolves_after_skips_witness :
    wfRun env0 exp0 deepStrictEqual 2
        ([recBye].map WFEvent.data ++ [WFEvent.data rec0])
      = ⟨1, false, false, false, some .resolved⟩ := by
  have h := waitFor_resolves_after_skips env0 exp0 deepStrictEqual 2 [recBye] rec0
    (by
      intro r hr
      rw [List.mem_singleton] at hr
      subst hr
      exact ⟨.notDeepEqual, by decide⟩)
    (by decide) (by decide)
  exact h.trans (by decide)

/-- C9: in the third-argument options position every falsy value is
replaced by the default (the `||` pattern), so `maxMessages: 0` and
`timeout: 0` there behave as 100 and 1000; in the fourth-argument
position the destructuring defaults apply only to `undefined`, so the
same zeros — and any other defined value — are honored as written. -/
theorem waitFor_falsy_option_defaults (o opts : JVal)
    (a : JVal → JVal → Except JErr Unit) :
    (∀ v, objGet o "maxMessages" = v → truthy v = false →
      (waitForConfig (.objArg o) opts).maxMessages = .num DEFAULT_MAX_MESSAGES) ∧
    (∀ v, objGet o "timeout" = v → truthy v = false →
      (waitForConfig (.objArg o) opts).timeout = .num DEFAULT_WAIT_FOR_TIMEOUT) ∧
    (∀ v, objGet o "debug" = v → truthy v = false →
      (waitForConfig (.objArg o) opts).debug = .bool false) ∧
    (objGet opts "maxMessages" = .num 0 →
      (waitForConfig (.fn a) opts).maxMessages = .num 0) ∧
    (objGet opts "timeout" = .num 0 →
      (waitForConfig (.fn a) opts).timeout = .num 0) ∧
    (∀ v, objGet opts "maxMessages" = v → v ≠ .undefined →
      (waitForConfig (.fn a) opts).maxMessages = v) ∧
    (∀ v, objGet opts "timeout" = v → v ≠ .undefined →
      (waitForConfig (.fn a) opts).timeout = v) ∧
    (∀ v, objGet opts "debug" = v → v ≠ .undefined →
      (waitForConfig (.fn a) opts).debug = v) ∧
    (objGet opts "maxMessages" = .undefined →
      (waitForConfig (.fn a) opts).maxMessages = .num DEFAULT_MAX_MESSAGES) ∧
    (objGet opts "timeout" = .undefined →
      (waitForConfig (.fn a) opts).timeout = .num DEFAULT_WAIT_FOR_TIMEOUT) ∧
    (objGet opts "debug" = .undefined →
      (waitForConfig (.fn a) opts).debug = .bool false) := by
  refine ⟨?_, ?_, ?_, ?_, ?_, ?_, ?_, ?_, ?_, ?_, ?_⟩
  · intro v h hv
    simp [waitForConfig, orDefault, h, hv]
  · intro v h hv
    simp [waitForConfig, orDefault, h, hv]
  · intro v h hv
    simp [waitForConfig, orDefault, h, hv]
  · intro h
    simp [waitForConfig, destructureDefault, h]
  · intro h
    simp [waitForConfig, destructureDefault, h]
  · intro v h hv
    unfold waitForConfig destructureDefault
    rw [h]
    cases v <;> first | rfl | exact absurd rfl hv
  · intro v h hv
    unfold waitForConfig destructureDefault
    rw [h]
    cases v <;> first | rfl | exact absurd rfl hv
  · intro v h hv
    unfold waitForConfig destructureDefault
    rw [h]
    cases v <;> first | rfl | exact absurd rfl hv
  · intro h
    simp [waitForConfig, destructureDefault, h]
  · intro h
    simp [waitForConfig, destructureDefault, h]
  · intro h
    simp [waitForConfig, destructureDefault, h]

/-- C9 (witness): `{ maxMessages: 0, timeout: 0 }` as the third argument
gives the defaults back, while the same object as the fourth argument
(with a function third argument) keeps the zeros. -/
theorem waitFor_falsy_option_defaults_witness :
    (waitForConfig
        (.objArg (.objCons "maxMessages" (.num 0) (.objCons "timeout" (.num 0) .objNil)))
        .objNil).maxMessages = .num 100 ∧
    (waitForConfig
        (.objArg (.objCons "maxMessages" (.num 0) (.objCons "timeout" (.num 0) .objNil)))
        .objNil).timeout = .num 1000 ∧
    (waitForConfig (.fn deepStrictEqual)
        (.objCons "maxMessages" (.num 0) (.objCons "timeout" (.num 0) .objNil))).maxMessages
      = .num 0 ∧
    (waitForConfig (.fn deepStrictEqual)
        (.objCons "maxMessages" (.num 0) (.objCons "timeout" (.num 0) .objNil))).timeout
      = .num 0 := by
  have h := waitFor_falsy_option_defaults
    (.objCons "maxMessages" (.num 0) (.objCons "timeout" (.num 0) .objNil))
    (.objCons "maxMessages" (.num 0) (.objCons "timeout" (.num 0) .objNil))
    deepStrictEqual
  refine ⟨?_, ?_, ?_, ?_⟩
  · exact (h.1 (.num 0) (by decide) (by decide)).trans (by decide)
  · exact (h.2.1 (.num 0) (by decide) (by decide)).trans (by decide)
  · exact h.2.2.2.1 (by decide)
  · exact h.2.2.2.2.1 (by decide)

/-- C10: a record whose `time` field is an invalid date — in particular
an absent `time` field, which destructures to `undefined` — makes
`check` throw its timestamp assertion whatever the expectation and the
assert function; consequently `once` rejects with it, `consecutive`
aborts with it, and `waitFor` never accepts such a record as a match
(it counts it as non-matching). -/
theorem invalid_time_rejected (env : Env) (chunk : JVal)
    (assert : JVal → JVal → Except JErr Unit)
    (hO : isObj chunk = true)
    (hT : jsDateOf env (objGet chunk "time") = none) :
    (∀ exp, check env chunk exp assert = .error .timeNotLe) ∧
    (∀ (exp : Expected) (rest : List SEvent),
      (onceRun env exp assert (.data chunk :: rest)).outcome
        = some (.error .timeNotLe)) ∧
    (∀ (exps : List Expected) (recs : List JVal),
      consecutive env exps assert (chunk :: recs) = .error .timeNotLe) ∧
    (∀ (exp : Expected) (mm : Int) (s : WFState),
      s.dataOn = true → s.outcome = none →
      (wfStep env exp assert mm s (.data chunk)).outcome ≠ some .resolved ∧
      (wfStep env exp assert mm s (.data chunk)).count = s.count + 1) ∧
    (objHas chunk "time" = false → objGet chunk "time" = .undefined) ∧
    (jsDateOf env .undefined = none) := by
  refine ⟨fun exp => check_invalid_time env chunk exp assert hO hT, ?_, ?_, ?_,
    objGet_of_not_has chunk "time", rfl⟩
  · intro exp rest
    rw [(onceRun_first_data env exp assert chunk rest).1,
        check_invalid_time env chunk exp assert hO hT]
  · intro exps recs
    have hc := check_invalid_time env chunk ((exps[0]?).getD (.lit .undefined)) assert hO hT
    simp [consecutive, consecutiveLoop, hc]
  · intro exp mm s hd ho
    exact wfStep_data_fail_not_resolved env exp assert mm s chunk .timeNotLe
      (check_invalid_time env chunk exp assert hO hT) hd ho

/-- C10 (witness): the record with no `time` field is rejected by `check`
with the timestamp assertion under `env0`, where its body would have
matched. -/
theorem invalid_time_rejected_witness :
    isObj recNoTime = true ∧
    objHas recNoTime "time" = false ∧
    jsDateOf env0 (objGet recNoTime "time") = none ∧
    check env0 recNoTime exp0 deepStrictEqual = .error .timeNotLe ∧
    (onceRun env0 exp0 deepStrictEqual [.data recNoTime]).outcome
      = some (.error .timeNotLe) := by
  refine ⟨by decide, by decide, by decide, ?_, ?_⟩
  · exact (invalid_time_rejected env0 recNoTime deepStrictEqual
      (by decide) (by decide)).1 exp0
  · exact (invalid_time_rejected env0 recNoTime deepStrictEqual
      (by decide) (by decide)).2.1 exp0 []
